import Mathlib

/-!
Shallow embedding of the carrier endpoint core (src/packet.rs, src/endpoint.rs).
Bytes are modelled as natural numbers below 256 in `List Nat`; all multi-byte
integers on the wire are big-endian, as in the source.
-/

namespace Carrier

/-- Big-endian byte representation of `x` in exactly `n` bytes (most
significant first), as produced by `write_u64::<BigEndian>` and friends. -/
def beBytes : Nat → Nat → List Nat
  | 0, _ => []
  | n + 1, x => beBytes n (x / 256) ++ [x % 256]

/-- Big-endian value of a byte list, as read by `read_u64::<BigEndian>`. -/
def beVal (l : List Nat) : Nat := l.foldl (fun a b => a * 256 + b) 0

/-- `read_u8`: take one byte off the front, failing on empty input. -/
def readU8 : List Nat → Option (Nat × List Nat)
  | [] => none
  | b :: r => some (b, r)

/-- `read_exact`: take exactly `n` bytes off the front, failing if fewer remain. -/
def readExact (n : Nat) (l : List Nat) : Option (List Nat × List Nat) :=
  if n ≤ l.length then some (l.take n, l.drop n) else none

/-- Read an `n`-byte big-endian integer off the front. -/
def readBE (n : Nat) (l : List Nat) : Option (Nat × List Nat) :=
  match readExact n l with
  | none => none
  | some (b, r) => some (beVal b, r)

/-- `proto::Path` message: a declared candidate path with an i32 category tag. -/
structure ProtoPath where
  category : Int
  ipaddr : String
  deriving DecidableEq, Repr

/-- `proto::ConnectResponse` message received from the broker. -/
structure ProtoConnectResponse where
  ok : Bool
  route : Nat
  handshake : List Nat
  paths : List ProtoPath
  deriving DecidableEq, Repr

/-- `error::Error`, restricted to the variants the embedded core produces.
External failures (io, prost decode, noise) are collapsed into `Io` /
`External`; the claims never need to distinguish them. -/
inductive Error where
  | Io
  | External
  | InvalidVersion (version : Nat)
  | InvalidFrameType (typ : Nat)
  | AntiReplay
  | SecurityViolation
  | OutgoingConnectFailed (identity : Nat) (cr : Option ProtoConnectResponse)
  | OutOfOptions
  deriving DecidableEq, Repr

/-- `packet::RoutingDirection`. -/
inductive RoutingDirection where
  | Initiator2Responder
  | Responder2Initiator
  deriving DecidableEq, Repr

/-- `packet::EncryptedPacket`. -/
structure EncryptedPacket where
  version : Nat
  route : Nat
  direction : RoutingDirection
  counter : Nat
  payload : List Nat
  deriving DecidableEq, Repr

/-- `EncryptedPacket::decode`: read the version byte, three reserved bytes, the
8-byte route (whose last byte's low bit is the direction and is masked out),
and the 8-byte counter, then check version and reserved bytes; the remaining
input is the payload. -/
def EncryptedPacket.decode (inbuf : List Nat) : Except Error EncryptedPacket :=
  match readU8 inbuf with
  | none => .error .Io
  | some (version, r1) =>
    match readExact 3 r1 with
    | none => .error .Io
    | some (reserved, r2) =>
      match readExact 8 r2 with
      | none => .error .Io
      | some (routeB, r3) =>
        let b7 := routeB.getD 7 0
        let direction :=
          if b7 % 2 = 1 then RoutingDirection.Responder2Initiator
          else RoutingDirection.Initiator2Responder
        let route := beVal (routeB.take 7 ++ [b7 - b7 % 2])
        match readBE 8 r3 with
        | none => .error .Io
        | some (counter, r4) =>
          if version ≠ 8 ∨ reserved ≠ [0xff, 0xff, 0xff] then
            .error (.InvalidVersion version)
          else
            .ok { version, route, direction, counter, payload := r4 }

/-- `EncryptedPacket::encode`: version byte, 0xFF 0xFF 0xFF, the 8-byte route
with its last byte's low bit set from the direction, the 8-byte counter, then
the payload. -/
def EncryptedPacket.encode (p : EncryptedPacket) : List Nat :=
  let routeB := beBytes 8 p.route
  let b7 := routeB.getD 7 0
  let b7' :=
    match p.direction with
    | .Initiator2Responder => b7 - b7 % 2
    | .Responder2Initiator => b7 - b7 % 2 + 1
  [p.version] ++ [0xff, 0xff, 0xff] ++ (routeB.take 7 ++ [b7']) ++
    beBytes 8 p.counter ++ p.payload

/-- Insert into a sorted list, preserving order (helper for `sortU64`). -/
def insertSorted (x : Nat) : List Nat → List Nat
  | [] => [x]
  | y :: r => if x ≤ y then x :: y :: r else y :: insertSorted x r

/-- Sorting of the ack list done by `acked.sort_unstable()` in `Frame::encode`
(any comparison sort agrees on `u64` keys; this is insertion sort). -/
def sortU64 (l : List Nat) : List Nat := l.foldr insertSorted []

/-- Boolean sortedness check (non-decreasing). -/
def isSorted : List Nat → Bool
  | [] => true
  | [_] => true
  | x :: y :: r => decide (x ≤ y) && isSorted (y :: r)

/-- `packet::Frame`. -/
inductive Frame where
  | Header (stream : Nat) (payload : List Nat)
  | Stream (stream : Nat) (order : Nat) (payload : List Nat)
  | Ack (delay : Nat) (acked : List Nat)
  | Ping
  | Disconnect
  | Close (stream : Nat) (order : Nat)
  | Config (timeout : Option Nat) (sleeping : Bool)
  deriving DecidableEq, Repr

/-- `Frame::len`. -/
def Frame.len : Frame → Nat
  | .Header _ payload => 1 + 4 + 2 + payload.length
  | .Stream _ _ payload => 1 + 4 + 8 + 2 + payload.length
  | .Ack _ acked => 1 + 2 + 2 + 8 * acked.length
  | .Ping => 1
  | .Disconnect => 1
  | .Close _ _ => 1 + 4 + 8
  | .Config timeout _ => 1 + 1 + 2 + if timeout.isSome then 2 else 0

/-- The `assert!` preconditions of `Frame::encode`. -/
def Frame.encodeOk : Frame → Bool
  | .Header _ payload => decide (payload.length + 12 < 65535)
  | .Stream _ _ payload => decide (payload.length + 12 < 65535)
  | .Ack _ acked => decide (acked.length < 65535 / 8)
  | _ => true

/-- Concatenated big-endian encoding of the (sorted) ack list. -/
def bytesOfAcks : List Nat → List Nat
  | [] => []
  | a :: r => beBytes 8 a ++ bytesOfAcks r

/-- `Frame::encode`, as the byte list written to `w` (the source returns
`Ok(self.len())` after writing; `as u16` casts truncate, which `beBytes 2`
reproduces since it keeps only the low 16 bits). -/
def Frame.encode : Frame → List Nat
  | .Header stream payload =>
      [0x04] ++ beBytes 4 stream ++ beBytes 2 payload.length ++ payload
  | .Stream stream order payload =>
      [0x05] ++ beBytes 4 stream ++ beBytes 8 order ++ beBytes 2 payload.length ++ payload
  | .Ack delay acked =>
      [0x01] ++ beBytes 2 delay ++ beBytes 2 acked.length ++ bytesOfAcks (sortU64 acked)
  | .Ping => [0x02]
  | .Disconnect => [0x03]
  | .Close stream order => [0x06] ++ beBytes 4 stream ++ beBytes 8 order
  | .Config timeout sleeping =>
      let flags := (if timeout.isSome then 128 else 0) + (if sleeping then 64 else 0)
      let datalen := if timeout.isSome then 2 else 0
      [0x07, flags] ++ beBytes 2 datalen ++
        (match timeout with
         | some t => beBytes 2 t
         | none => [])

/-- The `for _ in 0..count` loop of the `0x01` (Ack) decode arm. -/
def readAcked : Nat → List Nat → Option (List Nat × List Nat)
  | 0, l => some ([], l)
  | c + 1, l =>
    match readBE 8 l with
    | none => none
    | some (a, r) =>
      match readAcked c r with
      | none => none
      | some (as, r2) => some (a :: as, r2)

/-- One body of the `loop` in `Frame::decode` after the tag `t` was read:
parse the body of that frame from `r`, yielding the frame (or `none` for the
`0x00` pad) and the remaining input. -/
def Frame.decodeStep (t : Nat) (r : List Nat) : Except Error (Option Frame × List Nat) :=
  if t = 0x00 then .ok (none, r)
  else if t = 0x01 then
    match readBE 2 r with
    | none => .error .Io
    | some (delay, r1) =>
      match readBE 2 r1 with
      | none => .error .Io
      | some (count, r2) =>
        match readAcked count r2 with
        | none => .error .Io
        | some (acked, r3) => .ok (some (Frame.Ack delay acked), r3)
  else if t = 0x02 then .ok (some Frame.Ping, r)
  else if t = 0x03 then .ok (some Frame.Disconnect, r)
  else if t = 0x04 then
    match readBE 4 r with
    | none => .error .Io
    | some (stream, r1) =>
      match readBE 2 r1 with
      | none => .error .Io
      | some (len, r2) =>
        match readExact len r2 with
        | none => .error .Io
        | some (payload, r3) => .ok (some (Frame.Header stream payload), r3)
  else if t = 0x05 then
    match readBE 4 r with
    | none => .error .Io
    | some (stream, r1) =>
      match readBE 8 r1 with
      | none => .error .Io
      | some (order, r2) =>
        match readBE 2 r2 with
        | none => .error .Io
        | some (len, r3) =>
          match readExact len r3 with
          | none => .error .Io
          | some (payload, r4) => .ok (some (Frame.Stream stream order payload), r4)
  else if t = 0x06 then
    match readBE 4 r with
    | none => .error .Io
    | some (stream, r1) =>
      match readBE 8 r1 with
      | none => .error .Io
      | some (order, r2) => .ok (some (Frame.Close stream order), r2)
  else if t = 0x07 then
    match readU8 r with
    | none => .error .Io
    | some (flags, r1) =>
      match readBE 2 r1 with
      | none => .error .Io
      | some (datalen, r2) =>
        match readExact datalen r2 with
        | none => .error .Io
        | some (data, r3) =>
          let timeoutR :=
            if flags &&& 128 > 0 then
              match readBE 2 data with
              | none => none
              | some (t, _) => some (some t)
            else some none
          match timeoutR with
          | none => .error .Io
          | some timeout =>
            let sleeping := flags &&& 64 > 0
            .ok (some (Frame.Config timeout sleeping), r3)
  else .error (.InvalidFrameType t)

/-- The `loop` of `Frame::decode`: read a tag, parse one frame via
`Frame.decodeStep`, and continue on the rest. `fuel` only bounds the
iteration count; `Frame.decode` supplies the input length, which suffices
since every iteration consumes at least the tag byte. -/
def Frame.decodeLoop : Nat → List Nat → Except Error (List Frame)
  | _, [] => .ok []
  | 0, _ :: _ => .error .Io
  | fuel + 1, t :: r =>
    match Frame.decodeStep t r with
    | .error e => .error e
    | .ok (none, rest) => Frame.decodeLoop fuel rest
    | .ok (some f, rest) => (Frame.decodeLoop fuel rest).map (f :: ·)

/-- `Frame::decode`: read frames until the input is exhausted at a tag
boundary (EOF between frames returns the frames read so far). -/
def Frame.decode (l : List Nat) : Except Error (List Frame) :=
  Frame.decodeLoop l.length l

/-- Well-formedness of a frame for the round-trip: the fields fit the machine
widths of the source (`u32` stream, `u64` order, `u16` delay/timeout, byte
payload), the ack list is sorted, and the encoder's `assert!` bounds hold. -/
def Frame.wfB : Frame → Bool
  | .Header stream payload =>
      decide (stream < 2 ^ 32) && decide (payload.length + 12 < 65535) &&
        payload.all (fun b => decide (b < 256))
  | .Stream stream order payload =>
      decide (stream < 2 ^ 32) && decide (order < 2 ^ 64) &&
        decide (payload.length + 12 < 65535) && payload.all (fun b => decide (b < 256))
  | .Ack delay acked =>
      decide (delay < 2 ^ 16) && isSorted acked && decide (acked.length < 65535 / 8) &&
        acked.all (fun x => decide (x < 2 ^ 64))
  | .Ping => true
  | .Disconnect => true
  | .Close stream order => decide (stream < 2 ^ 32) && decide (order < 2 ^ 64)
  | .Config timeout _ =>
      match timeout with
      | some t => decide (t < 2 ^ 16)
      | none => true

/-- `Result::is_err` view of a decode result. -/
def exceptFailed {α : Type} : Except Error α → Bool
  | .error _ => true
  | .ok _ => false

/-- `proto::path::Category`. -/
inductive Category where
  | Local
  | Internet
  | BrokerOrigin
  deriving DecidableEq, Repr

/-- The `as i32` value of a category. -/
def Category.toI32 : Category → Int
  | .Local => 0
  | .Internet => 1
  | .BrokerOrigin => 2

/-- Socket addresses, abstracted to identifiers. -/
abbrev SocketAddr := Nat

/-- The per-channel candidate map `HashMap<SocketAddr, (Category, usize)>`,
modelled as an association list with list order standing in for the hash
map's (arbitrary) iteration order. -/
abbrev AddrMap := List (SocketAddr × Category × Nat)

/-- `endpoint::AddressMode`. -/
inductive AddressMode where
  | Discovering (addrs : AddrMap)
  | Established (chosen : SocketAddr) (prior : AddrMap)
  deriving DecidableEq, Repr

/-- First-match lookup in the candidate map (`HashMap::get`). -/
def lookupAddr : AddrMap → SocketAddr → Option (Category × Nat)
  | [], _ => none
  | (b, cat, n) :: r, a => if b = a then some (cat, n) else lookupAddr r a

/-- `addrs.entry(addr).or_insert((Category::Internet, 0)); *count += 1`:
increment the sender's counter, inserting a fresh `Internet` entry with
count 0 first when absent; returns the updated map and the new count. -/
def bumpAddr : AddrMap → SocketAddr → AddrMap × Nat
  | [], a => ([(a, Category.Internet, 1)], 1)
  | (b, cat, n) :: r, a =>
      if b = a then ((b, cat, n + 1) :: r, n + 1)
      else
        let p := bumpAddr r a
        ((b, cat, n) :: p.1, p.2)

/-- One step of the settle scan (`for (addr, (cat, count)) in &*addrs` in
`Endpoint::poll`): among entries with count >= 1, keep the first entry in
iteration order whose category strictly improves on the best seen. -/
def settleStep (s : Option SocketAddr × Option Int) (e : SocketAddr × Category × Nat) :
    Option SocketAddr × Option Int :=
  if 1 ≤ e.2.2 then
    match s.2 with
    | some bestest =>
        if bestest > e.2.1.toI32 then (some e.1, some e.2.1.toI32) else s
    | none => (some e.1, some e.2.1.toI32)
  else s

/-- The full settle scan: the chosen address `m` of `Endpoint::poll`. -/
def settlePick (addrs : AddrMap) : Option SocketAddr :=
  (addrs.foldl settleStep (none, none)).1

/-- Address-state update on a received datagram (`Endpoint::poll`, lines
488-522): in `Discovering`, bump the sender's counter; when the new count
reaches 5, settle on the scanned best candidate and move the whole bumped
map into the `Established` prior map. `none` models the `m.unwrap()` panic,
which is unreachable because the bumped entry always has count >= 1.
`Established` channels are not changed by this part of `poll`. -/
def discoverStep (mode : AddressMode) (addr : SocketAddr) : Option AddressMode :=
  match mode with
  | .Discovering addrs =>
      let p := bumpAddr addrs addr
      if 5 ≤ p.2 then
        match settlePick p.1 with
        | some m => some (.Established m p.1)
        | none => none
      else some (.Discovering p.1)
  | .Established c prior => some (.Established c prior)

/-- Iterated datagram arrivals. -/
def discoverMany (mode : AddressMode) : List SocketAddr → Option AddressMode
  | [] => some mode
  | a :: r =>
      match discoverStep mode a with
      | none => none
      | some m => discoverMany m r

/-- Migration rule after a successful `chan.recv` in `Established` mode
(`Endpoint::poll`, lines 531-546): on receive from `addr != chosen`, look up
both categories in the prior candidate map (default `Internet`) and move
`chosen` to `addr` when the current category is `>=` the new one. -/
def migrate (chosen : SocketAddr) (prior : AddrMap) (addr : SocketAddr) : SocketAddr :=
  if addr ≠ chosen then
    let current_cat := ((lookupAddr prior chosen).getD (Category.Internet, 0)).1
    let migrate_cat := ((lookupAddr prior addr).getD (Category.Internet, 0)).1
    if current_cat.toI32 ≥ migrate_cat.toI32 then addr else chosen
  else chosen

/-- Invariant of the settle scan: after scanning `ctx`, either nothing had a
positive count and no candidate is held, or the held candidate is an entry of
`ctx` with positive count whose category is minimal among such entries. -/
def GoodState (ctx : AddrMap) (s : Option SocketAddr × Option Int) : Prop :=
  (s = (none, none) ∧ ∀ e ∈ ctx, e.2.2 = 0) ∨
  (∃ a cat n, (a, cat, n) ∈ ctx ∧ 1 ≤ n ∧ s = (some a, some cat.toI32) ∧
    ∀ e ∈ ctx, 1 ≤ e.2.2 → cat.toI32 ≤ e.2.1.toI32)

/-- Peer identities (`identity::Identity`), abstracted to identifiers. -/
abbrev Identity := Nat

/-- Noise handshake requester state, abstracted to a handle. -/
abbrev NoiseRequester := Nat

/-- Noise handshake responder state, abstracted to a handle. -/
abbrev NoiseResponder := Nat

/-- Completed noise transport, abstracted to a handle. -/
abbrev NoiseTransport := Nat

/-- `proto::PeerConnectRequest`. -/
structure ProtoPeerConnectRequest where
  identity : List Nat
  timestamp : Nat
  handshake : List Nat
  paths : List ProtoPath
  route : Nat
  deriving DecidableEq, Repr

/-- `proto::PeerConnectResponse`. -/
structure ProtoPeerConnectResponse where
  ok : Bool
  handshake : List Nat
  paths : List ProtoPath
  deriving DecidableEq, Repr

/-- `endpoint::ConnectRequest`: the payload of `Event::IncommingConnect`. -/
structure ConnectRequest where
  qstream : Nat
  identity : Identity
  responder : NoiseResponder
  cr : ProtoPeerConnectRequest
  deriving DecidableEq, Repr

/-- `endpoint::ConnectResponseStage`: the two-state machine of an
outgoing-pending broker stream. -/
inductive ConnectResponseStage where
  | WaitingForHeaders (identity : Identity) (noise : NoiseRequester)
  | WaitingForResponse (identity : Identity) (noise : NoiseRequester)
  deriving DecidableEq, Repr

/-- The identity carried by either stage. -/
def ConnectResponseStage.identity : ConnectResponseStage → Identity
  | .WaitingForHeaders identity _ => identity
  | .WaitingForResponse identity _ => identity

/-- `endpoint::ConnectResponse`: the payload of `Event::OutgoingConnect`. -/
structure ConnectResponse where
  identity : Identity
  cr : Option ProtoConnectResponse
  requester : Option NoiseRequester
  deriving DecidableEq, Repr

/-- `endpoint::Event`. -/
inductive Event where
  | IncommingConnect (q : ConnectRequest)
  | OutgoingConnect (r : ConnectResponse)
  | Disconnect (route : Nat) (identity : Identity)
  deriving DecidableEq, Repr

/-- The endpoint's external collaborators (noise handshake core, prost
message codecs, identity and address parsing), which the spec leaves out of
scope; the endpoint logic is verified for every implementation of this
interface. -/
structure Externals where
  decodeHeaders : List Nat → Except Error Nat
  decodeConnectResponse : List Nat → Except Error ProtoConnectResponse
  decodePeerConnectRequest : List Nat → Except Error ProtoPeerConnectRequest
  identityFromBytes : List Nat → Except Error Identity
  noiseRespond : EncryptedPacket → Except Error (NoiseResponder × Identity × Nat)
  encodePeerConnectResponse : ProtoPeerConnectResponse → List Nat
  recvResponse : NoiseRequester → EncryptedPacket → Except Error Identity
  intoTransport : NoiseRequester → Except Error NoiseTransport
  transportRoute : NoiseTransport → Nat
  parseAddr : String → Option SocketAddr

/-- `Endpoint::peer_connect_request` (endpoint.rs, lines 438-458): decode the
`PeerConnectRequest`, parse the embedded identity, decode the embedded
handshake packet, run the noise responder, and reject with
`SecurityViolation` when the recovered identity or timestamp disagree with
the embedded ones. (`publish_secret` is passed but unused, as in the
source.) -/
def peer_connect_request (ext : Externals) (qstream : Nat) (publish_secret : Nat)
    (frame : List Nat) : Except Error ConnectRequest :=
  match ext.decodePeerConnectRequest frame with
  | .error e => .error e
  | .ok cr =>
    match ext.identityFromBytes cr.identity with
    | .error e => .error e
    | .ok identity =>
      match EncryptedPacket.decode cr.handshake with
      | .error e => .error e
      | .ok pkt =>
        match ext.noiseRespond pkt with
        | .error e => .error e
        | .ok (responder, id2, ts) =>
          if id2 ≠ identity ∨ ts ≠ cr.timestamp then
            .error Error.SecurityViolation
          else
            .ok { identity, responder, cr, qstream }

/-- First-match lookup in an association list keyed by `Nat`
(`HashMap::get`). -/
def lookupKV {α : Type} : List (Nat × α) → Nat → Option α
  | [], _ => none
  | (k, v) :: r, key => if k = key then some v else lookupKV r key

/-- Remove the first entry with the given key (`HashMap::remove`). -/
def removeKV {α : Type} : List (Nat × α) → Nat → List (Nat × α)
  | [], _ => []
  | (k, v) :: r, key => if k = key then r else (k, v) :: removeKV r key

/-- Insert, replacing any existing entry (`HashMap::insert`). -/
def insertKV {α : Type} (l : List (Nat × α)) (k : Nat) (v : α) : List (Nat × α) :=
  (k, v) :: removeKV l k

/-- The broker-stream bookkeeping of the endpoint that the connect protocol
manipulates. -/
structure BrokerState where
  outstandingIncomming : List Nat
  outstandingOutgoing : List (Nat × ConnectResponseStage)
  publishSecret : Option Nat
  deriving DecidableEq, Repr

/-- The observable result of handling one `ChannelProgress::ReceiveStream`
item: the new bookkeeping state, the messages written back on broker streams,
the streams closed, and the event returned from `poll`, or `abort` for an
`unwrap` panic. -/
inductive StepOutcome where
  | abort
  | ok (st : BrokerState) (sent : List (Nat × List Nat)) (closed : List Nat)
      (ev : Option Event)
  deriving DecidableEq, Repr

/-- `ChannelProgress::ReceiveStream(stream, frame)` handling in
`Endpoint::poll` (lines 661-730): a broker-channel stream that is
incoming-pending (with a publish secret) is validated as a
`PeerConnectRequest` — producing `Event::IncommingConnect` or, on error, a
negative `PeerConnectResponse` followed by a close; an outgoing-pending
stream advances its two-state machine; anything else is delivered to the
stream's driver (outside this state) or dropped. As in the source, the
incoming-pending set is mutated by the `remove` call even when the publish
secret is missing. -/
def brokerReceiveStream (ext : Externals) (isBroker : Bool) (st : BrokerState)
    (stream : Nat) (frame : List Nat) : StepOutcome :=
  let inIncoming := isBroker && st.outstandingIncomming.contains stream
  let st1 :=
    if inIncoming then
      { st with outstandingIncomming := st.outstandingIncomming.erase stream }
    else st
  if inIncoming && st.publishSecret.isSome then
    match peer_connect_request ext stream (st.publishSecret.getD 0) frame with
    | .ok q => .ok st1 [] [] (some (.IncommingConnect q))
    | .error _ =>
        .ok st1 [(stream, ext.encodePeerConnectResponse ⟨false, [], []⟩)] [stream] none
  else if isBroker && (lookupKV st1.outstandingOutgoing stream).isSome then
    match lookupKV st1.outstandingOutgoing stream with
    | some (.WaitingForHeaders identity noise) =>
        match ext.decodeHeaders frame with
        | .error _ => .abort
        | .ok _ =>
            let og := insertKV (removeKV st1.outstandingOutgoing stream) stream
              (.WaitingForResponse identity noise)
            .ok { st1 with outstandingOutgoing := og } [] [] none
    | some (.WaitingForResponse identity noise) =>
        match ext.decodeConnectResponse frame with
        | .error _ => .abort
        | .ok cr =>
            let og := removeKV st1.outstandingOutgoing stream
            .ok { st1 with outstandingOutgoing := og }
              [] [stream] (some (.OutgoingConnect ⟨identity, some cr, some noise⟩))
    | none => .ok st1 [] [] none
  else
    .ok st1 [] [] none

/-- `ChannelProgress::Close(stream)` handling in `Endpoint::poll` (lines
734-748): closing an outgoing-pending broker stream removes its state machine
and yields a failure `Event::OutgoingConnect` with `cr = None`,
`requester = None`. -/
def brokerCloseStream (isBroker : Bool) (st : BrokerState) (stream : Nat) :
    BrokerState × Option Event :=
  if isBroker && (lookupKV st.outstandingOutgoing stream).isSome then
    match lookupKV st.outstandingOutgoing stream with
    | some stage =>
        ({ st with outstandingOutgoing := removeKV st.outstandingOutgoing stream },
         some (.OutgoingConnect ⟨stage.identity, none, none⟩))
    | none => (st, none)
  else (st, none)

/-- `endpoint::UdpChannel` (engine and handler factory abstracted away;
`streams` records the registered stream ids, `newhandl` whether a factory is
installed). -/
structure UdpChannel where
  identity : Identity
  addrs : AddressMode
  streams : List Nat
  newhandl : Bool
  deriving DecidableEq, Repr

/-- The endpoint state the connect/open operations manipulate: the channel
map keyed by `RoutingKey` and the broker route. -/
structure Endpoint where
  channels : List (Nat × UdpChannel)
  broker_route : Nat
  deriving DecidableEq, Repr

/-- The category match of `accept_outgoing`/`accept_incomming`: `none`
models the `unreachable!()` panic on an unknown i32 value. -/
def categoryOfI32 (o : Int) : Option Category :=
  if o = Category.Local.toI32 then some Category.Local
  else if o = Category.Internet.toI32 then some Category.Internet
  else if o = Category.BrokerOrigin.toI32 then some Category.BrokerOrigin
  else none

/-- Remove the first entry for the address. -/
def removeAddr : AddrMap → SocketAddr → AddrMap
  | [], _ => []
  | (b, cv) :: r, a => if b = a then r else (b, cv) :: removeAddr r a

/-- `paths.insert(addr, (cat, n))`, replacing any existing entry. -/
def insertAddr (m : AddrMap) (a : SocketAddr) (cat : Category) (n : Nat) : AddrMap :=
  (a, cat, n) :: removeAddr m a

/-- The `for path in cr.paths` loop of `accept_outgoing`: convert each
declared category (`unreachable!` on unknown values), parse each address
(`unwrap` on failure), and insert with count 0; `none` models either
panic. -/
def buildPaths (ext : Externals) : List ProtoPath → AddrMap → Option AddrMap
  | [], acc => some acc
  | p :: rest, acc =>
      match categoryOfI32 p.category, ext.parseAddr p.ipaddr with
      | some cat, some addr => buildPaths ext rest (insertAddr acc addr cat 0)
      | _, _ => none

/-- If the broker channel is established, insert its address under
`BrokerOrigin` (lines 319-323). -/
def addBrokerOrigin (ep : Endpoint) (paths : AddrMap) : AddrMap :=
  match lookupKV ep.channels ep.broker_route with
  | some ch =>
      match ch.addrs with
      | .Established addr _ => insertAddr paths addr Category.BrokerOrigin 0
      | _ => paths
  | none => paths

/-- Result of `Endpoint::accept_outgoing`: an error (with the unchanged
endpoint), a panic (`abort`), or the new route and updated endpoint. -/
inductive AcceptOutgoingResult where
  | err (e : Error) (ep : Endpoint)
  | abort
  | ok (route : Nat) (ep : Endpoint)
  deriving DecidableEq, Repr

/-- `Endpoint::accept_outgoing` (endpoint.rs, lines 284-338): require both
the `ConnectResponse` and the pending noise requester, require `ok`, decode
the handshake, complete the noise exchange (`unwrap` panics on a failed
`recv_response`), panic on an identity or route mismatch, then insert a new
channel at `cr.route` in `Discovering` mode seeded with the relayed paths
plus the broker origin. -/
def accept_outgoing (ext : Externals) (ep : Endpoint) (q : ConnectResponse) :
    AcceptOutgoingResult :=
  let identity := q.identity
  match q.cr, q.requester with
  | some cr, some requester =>
      if cr.ok ≠ true then .err (.OutgoingConnectFailed identity (some cr)) ep
      else
        match EncryptedPacket.decode cr.handshake with
        | .error e => .err e ep
        | .ok pkt =>
            match ext.recvResponse requester pkt with
            | .error _ => .abort
            | .ok hs_identity =>
                match ext.intoTransport requester with
                | .error e => .err e ep
                | .ok noise =>
                    if identity ≠ hs_identity then .abort
                    else if cr.route ≠ ext.transportRoute noise then .abort
                    else
                      match buildPaths ext cr.paths [] with
                      | none => .abort
                      | some paths =>
                          let paths := addBrokerOrigin ep paths
                          let ch : UdpChannel :=
                            ⟨identity, .Discovering paths, [], true⟩
                          .ok cr.route
                            { ep with channels := insertKV ep.channels cr.route ch }
  | cr, _ => .err (.OutgoingConnectFailed identity cr) ep

/-- Result of `Endpoint::open` / `Endpoint::stream`: `abort` models the
`unwrap` panic on a missing channel. -/
inductive OpenResult where
  | abort
  | ok (ep : Endpoint)
  deriving DecidableEq, Repr

/-- `Endpoint::open` (endpoint.rs, lines 397-427): look up the channel
(`.unwrap()` panics when the route is unknown), open a stream on the channel
engine (`newStreamId` stands for the id the engine allocates) and register
the driver under it. -/
def Endpoint.openStream (ep : Endpoint) (route : Nat) (newStreamId : Nat) : OpenResult :=
  match lookupKV ep.channels route with
  | none => .abort
  | some ch =>
      let ch2 := { ch with streams := newStreamId :: ch.streams }
      .ok { ep with channels := insertKV ep.channels route ch2 }

/-- `Endpoint::stream` (endpoint.rs, lines 429-436): look up the channel
(`.unwrap()` panics when the route is unknown) and enqueue the payload on the
channel engine, which lives outside the endpoint state. -/
def Endpoint.streamSend (ep : Endpoint) (route : Nat) (stream : Nat) (m : List Nat) :
    OpenResult :=
  match lookupKV ep.channels route with
  | none => .abort
  | some _ => .ok ep

/-- A concrete instantiation of the external interface, used to evaluate the
endpoint theorems on closed inputs: the message codecs accept everything, the
noise responder recovers identity 2 at timestamp 5, the noise requester
recovers identity 1, and completed transports route to 7. -/
def sampleExternals : Externals where
  decodeHeaders := fun _ => .ok 0
  decodeConnectResponse := fun _ => .ok ⟨true, 7, [], []⟩
  decodePeerConnectRequest := fun _ =>
    .ok ⟨[1], 5, [8, 255, 255, 255, 0, 0, 0, 0, 0, 0, 0, 0, 0, 0, 0, 0, 0, 0, 0, 0],
      [], 7⟩
  identityFromBytes := fun _ => .ok 1
  noiseRespond := fun _ => .ok (0, 2, 5)
  encodePeerConnectResponse := fun _ => [0]
  recvResponse := fun _ _ => .ok 1
  intoTransport := fun r => .ok r
  transportRoute := fun _ => 7
  parseAddr := fun _ => some 0

theorem beBytes_length (n x : Nat) : (beBytes n x).length = n := by
  induction n generalizing x with
  | zero => rfl
  | succ n ih => simp [beBytes, ih]

theorem beVal_append_singleton (l : List Nat) (b : Nat) :
    beVal (l ++ [b]) = beVal l * 256 + b := by
  simp [beVal, List.foldl_append]

theorem beVal_beBytes (n x : Nat) : beVal (beBytes n x) = x % 256 ^ n := by
  induction n generalizing x with
  | zero => simp [beBytes, beVal, Nat.mod_one]
  | succ n ih =>
      rw [beBytes, beVal_append_singleton, ih]
      rw [show 256 ^ (n + 1) = 256 * 256 ^ n by ring, Nat.mod_mul]
      ring

theorem beVal_beBytes_of_lt {n x : Nat} (h : x < 256 ^ n) :
    beVal (beBytes n x) = x := by
  rw [beVal_beBytes, Nat.mod_eq_of_lt h]

theorem readExact_append {n : Nat} {l : List Nat} (r : List Nat) (h : l.length = n) :
    readExact n (l ++ r) = some (l, r) := by
  subst h
  simp [readExact, List.take_left, List.drop_left]

theorem readExact_eq_none {n : Nat} {l : List Nat} (h : l.length < n) :
    readExact n l = none := by
  simp [readExact]
  omega

theorem readBE_append {n : Nat} {l : List Nat} (r : List Nat) (h : l.length = n) :
    readBE n (l ++ r) = some (beVal l, r) := by
  rw [readBE, readExact_append r h]

theorem readBE_beBytes {n x : Nat} (r : List Nat) (h : x < 256 ^ n) :
    readBE n (beBytes n x ++ r) = some (x, r) := by
  rw [readBE_append r (beBytes_length n x), beVal_beBytes_of_lt h]

theorem readBE_eq_none {n : Nat} {l : List Nat} (h : l.length < n) :
    readBE n l = none := by
  rw [readBE, readExact_eq_none h]

theorem insertSorted_length (x : Nat) (l : List Nat) :
    (insertSorted x l).length = l.length + 1 := by
  induction l with
  | nil => rfl
  | cons y r ih =>
      rw [insertSorted]
      by_cases h : x ≤ y <;> simp [h, ih]

theorem sortU64_length (l : List Nat) : (sortU64 l).length = l.length := by
  induction l with
  | nil => rfl
  | cons x r ih =>
      show (insertSorted x (sortU64 r)).length = r.length + 1
      rw [insertSorted_length, ih]

theorem sortU64_eq_self : ∀ {l : List Nat}, isSorted l = true → sortU64 l = l
  | [], _ => rfl
  | [_], _ => rfl
  | x :: y :: r, h => by
      have h' : x ≤ y ∧ isSorted (y :: r) = true := by
        simpa [isSorted] using h
      have ih := sortU64_eq_self h'.2
      show insertSorted x (sortU64 (y :: r)) = x :: y :: r
      rw [ih, insertSorted, if_pos h'.1]

theorem readExact_all {n : Nat} {l : List Nat} (h : l.length = n) :
    readExact n l = some (l, []) := by
  subst h
  simp [readExact]

theorem readAcked_bytesOfAcks :
    ∀ (l rest : List Nat), (∀ x ∈ l, x < 256 ^ 8) →
      readAcked l.length (bytesOfAcks l ++ rest) = some (l, rest) := by
  intro l
  induction l with
  | nil => intro rest _; simp [bytesOfAcks, readAcked]
  | cons a r ih =>
      intro rest h
      show readAcked (r.length + 1) ((beBytes 8 a ++ bytesOfAcks r) ++ rest) = _
      simp only [readAcked, List.append_assoc, readBE_beBytes _ (h a (by simp)),
        ih rest (fun x hx => h x (by simp [hx]))]

theorem bytesOfAcks_length : ∀ l : List Nat, (bytesOfAcks l).length = 8 * l.length := by
  intro l
  induction l with
  | nil => rfl
  | cons a r ih => simp [bytesOfAcks, beBytes_length, ih]; ring

theorem decodeLoop_nil (fuel : Nat) : Frame.decodeLoop fuel [] = .ok [] := by
  cases fuel <;> rfl

/-- A single frame followed by nothing decodes to a one-element list. -/
theorem decodeLoop_single {t : Nat} {r : List Nat} {f : Frame} (fuel : Nat)
    (h : Frame.decodeStep t r = .ok (some f, [])) :
    Frame.decodeLoop (fuel + 1) (t :: r) = .ok [f] := by
  rw [Frame.decodeLoop, h]
  show Except.map _ (Frame.decodeLoop fuel []) = _
  rw [decodeLoop_nil]
  rfl

/-- Decoding the bytes of an encoded well-formed frame yields exactly that
frame (C1, inner-frame half). -/
theorem frame_decode_encode (f : Frame) (h : f.wfB = true) :
    Frame.decode (Frame.encode f) = .ok [f] := by
  cases f with
  | Header stream payload =>
      simp only [Frame.wfB, Bool.and_eq_true, decide_eq_true_eq] at h
      obtain ⟨⟨h1, h2⟩, _⟩ := h
      have he : Frame.encode (.Header stream payload) =
          4 :: (beBytes 4 stream ++ (beBytes 2 payload.length ++ payload)) := by
        simp [Frame.encode]
      have hlen : payload.length < 256 ^ 2 := by norm_num at h2 ⊢; omega
      rw [Frame.decode, he, List.length_cons]
      refine decodeLoop_single _ ?_
      simp [Frame.decodeStep,
        readBE_beBytes _ (show stream < 256 ^ 4 by norm_num at h1 ⊢; omega),
        readBE_beBytes _ hlen, readExact_all rfl]
  | Stream stream order payload =>
      simp only [Frame.wfB, Bool.and_eq_true, decide_eq_true_eq] at h
      obtain ⟨⟨⟨h1, h2⟩, h3⟩, _⟩ := h
      have he : Frame.encode (.Stream stream order payload) =
          5 :: (beBytes 4 stream ++ (beBytes 8 order ++
            (beBytes 2 payload.length ++ payload))) := by
        simp [Frame.encode]
      have hlen : payload.length < 256 ^ 2 := by norm_num at h3 ⊢; omega
      rw [Frame.decode, he, List.length_cons]
      refine decodeLoop_single _ ?_
      simp [Frame.decodeStep,
        readBE_beBytes _ (show stream < 256 ^ 4 by norm_num at h1 ⊢; omega),
        readBE_beBytes _ (show order < 256 ^ 8 by norm_num at h2 ⊢; omega),
        readBE_beBytes _ hlen, readExact_all rfl]
  | Ack delay acked =>
      simp only [Frame.wfB, Bool.and_eq_true, decide_eq_true_eq, List.all_eq_true,
        decide_eq_true_eq] at h
      obtain ⟨⟨⟨h1, h2⟩, h3⟩, h4⟩ := h
      have he : Frame.encode (.Ack delay acked) =
          1 :: (beBytes 2 delay ++ (beBytes 2 acked.length ++
            (bytesOfAcks acked ++ []))) := by
        simp [Frame.encode, sortU64_eq_self h2]
      have hcnt : acked.length < 256 ^ 2 := by norm_num at h3 ⊢; omega
      have hacks := readAcked_bytesOfAcks acked []
        (fun x hx => by have := h4 x hx; norm_num at this ⊢; omega)
      rw [List.append_nil] at hacks
      rw [Frame.decode, he, List.length_cons]
      refine decodeLoop_single _ ?_
      simp [Frame.decodeStep,
        readBE_beBytes _ (show delay < 256 ^ 2 by norm_num at h1 ⊢; omega),
        readBE_beBytes _ hcnt, hacks]
  | Ping => rfl
  | Disconnect => rfl
  | Close stream order =>
      simp only [Frame.wfB, Bool.and_eq_true, decide_eq_true_eq] at h
      obtain ⟨h1, h2⟩ := h
      have he : Frame.encode (.Close stream order) =
          6 :: (beBytes 4 stream ++ (beBytes 8 order ++ [])) := by
        simp [Frame.encode]
      have hor : readBE 8 (beBytes 8 order) = some (order, []) := by
        rw [← List.append_nil (beBytes 8 order),
          readBE_beBytes _ (show order < 256 ^ 8 by norm_num at h2 ⊢; omega)]
      rw [Frame.decode, he, List.length_cons]
      refine decodeLoop_single _ ?_
      simp [Frame.decodeStep,
        readBE_beBytes _ (show stream < 256 ^ 4 by norm_num at h1 ⊢; omega), hor]
  | Config timeout sleeping =>
      cases timeout with
      | none =>
          cases sleeping with
          | false => rfl
          | true => rfl
      | some t =>
          simp only [Frame.wfB, decide_eq_true_eq] at h
          have ht : t < 256 ^ 2 := by norm_num at h ⊢; omega
          have hr2 : readBE 2 (beBytes 2 t) = some (t, []) := by
            rw [← List.append_nil (beBytes 2 t), readBE_beBytes _ ht]
          have hdl : readBE 2 (0 :: 2 :: beBytes 2 t) = some (2, beBytes 2 t) := by
            rw [show (0 :: 2 :: beBytes 2 t) = [0, 2] ++ beBytes 2 t from rfl,
              readBE_append (n := 2) (l := [0, 2]) _ (by norm_num)]
            rfl
          cases sleeping with
          | false =>
              have he : Frame.encode (.Config (some t) false) =
                  7 :: (128 :: ([0, 2] ++ beBytes 2 t)) := by
                simp [Frame.encode, beBytes]
              rw [Frame.decode, he, List.length_cons]
              refine decodeLoop_single _ ?_
              simp [Frame.decodeStep, readU8, hdl,
                readExact_all (beBytes_length 2 t), hr2,
                show (128 : Nat) &&& 128 = 128 by decide,
                show (128 : Nat) &&& 64 = 0 by decide]
          | true =>
              have he : Frame.encode (.Config (some t) true) =
                  7 :: (192 :: ([0, 2] ++ beBytes 2 t)) := by
                simp [Frame.encode, beBytes]
              rw [Frame.decode, he, List.length_cons]
              refine decodeLoop_single _ ?_
              simp [Frame.decodeStep, readU8, hdl,
                readExact_all (beBytes_length 2 t), hr2,
                show (192 : Nat) &&& 128 = 128 by decide,
                show (192 : Nat) &&& 64 = 64 by decide]

theorem beBytes_eight (x : Nat) : beBytes 8 x = beBytes 7 (x / 256) ++ [x % 256] := rfl

theorem beBytes8_take7 (R : Nat) : (beBytes 8 R).take 7 = beBytes 7 (R / 256) := by
  rw [beBytes_eight, List.take_left' (beBytes_length 7 (R / 256))]

theorem beBytes8_getD7 (R : Nat) : (beBytes 8 R).getD 7 0 = R % 256 := by
  rw [beBytes_eight,
    List.getD_append_right _ _ _ _ (le_of_eq (beBytes_length 7 (R / 256))),
    beBytes_length]
  rfl

/-- Core round-trip of the outer packet: decoding an encoded packet with a
valid version recovers everything except that the route's low bit is cleared
(it is overwritten on the wire by the direction bit). -/
theorem packet_decode_encode_core (p : EncryptedPacket) (hv : p.version = 8)
    (hr : p.route < 256 ^ 8) (hc : p.counter < 256 ^ 8) :
    EncryptedPacket.decode (EncryptedPacket.encode p) =
      .ok { version := 8, route := p.route - p.route % 2, direction := p.direction,
            counter := p.counter, payload := p.payload } := by
  obtain ⟨v, R, dir, c, pl⟩ := p
  simp only at hv hr hc
  subst hv
  have hlen7 : (beBytes 7 (R / 256)).length = 7 := beBytes_length 7 (R / 256)
  have htake : (beBytes 8 R).take 7 = beBytes 7 (R / 256) := beBytes8_take7 R
  have hb7 : (beBytes 8 R).getD 7 0 = R % 256 := beBytes8_getD7 R
  simp only [List.getD_eq_getElem?_getD] at hb7
  have hvalX : beVal (beBytes 7 (R / 256)) = R / 256 :=
    beVal_beBytes_of_lt (by norm_num at hr ⊢; omega)
  have step : ∀ b7' : Nat,
      EncryptedPacket.decode
        (8 :: ([255, 255, 255] ++ ((beBytes 8 R).take 7 ++ [b7'] ++
          (beBytes 8 c ++ pl)))) =
        .ok { version := 8, route := R / 256 * 256 + (b7' - b7' % 2),
              direction := if b7' % 2 = 1 then .Responder2Initiator
                           else .Initiator2Responder,
              counter := c, payload := pl } := by
    intro b7'
    have hlen : ((beBytes 8 R).take 7 ++ [b7']).length = 8 := by
      rw [List.length_append, htake, hlen7]
      rfl
    have hgd : ((beBytes 8 R).take 7 ++ [b7']).getD 7 0 = b7' := by
      rw [List.getD_append_right _ _ _ _ (le_of_eq (by rw [htake, hlen7]))]
      rw [htake, hlen7]
      rfl
    have htk : ((beBytes 8 R).take 7 ++ [b7']).take 7 = (beBytes 8 R).take 7 :=
      List.take_left' (by rw [htake, hlen7])
    rw [EncryptedPacket.decode]
    simp only [readU8,
      readExact_append (n := 3) (l := [255, 255, 255])
        ((beBytes 8 R).take 7 ++ [b7'] ++ (beBytes 8 c ++ pl)) rfl,
      readExact_append (n := 8) (beBytes 8 c ++ pl) hlen,
      readBE_beBytes _ hc]
    rw [hgd, htk, htake, beVal_append_singleton, hvalX]
    simp
  cases dir with
  | Initiator2Responder =>
      have he : EncryptedPacket.encode ⟨8, R, .Initiator2Responder, c, pl⟩ =
          8 :: ([255, 255, 255] ++ ((beBytes 8 R).take 7 ++
            [R % 256 - R % 256 % 2] ++ (beBytes 8 c ++ pl))) := by
        simp [EncryptedPacket.encode, hb7, List.append_assoc]
      have h2 : (R % 256 - R % 256 % 2) % 2 = 0 := by omega
      rw [he, step, h2]
      simp
      omega
  | Responder2Initiator =>
      have he : EncryptedPacket.encode ⟨8, R, .Responder2Initiator, c, pl⟩ =
          8 :: ([255, 255, 255] ++ ((beBytes 8 R).take 7 ++
            [R % 256 - R % 256 % 2 + 1] ++ (beBytes 8 c ++ pl))) := by
        simp [EncryptedPacket.encode, hb7, List.append_assoc]
      have h2 : (R % 256 - R % 256 % 2 + 1) % 2 = 1 := by omega
      rw [he, step, h2]
      simp
      omega

theorem readExact_split {n : Nat} {l : List Nat} (h : n ≤ l.length) :
    readExact n l = some (l.take n, l.drop n) := by
  rw [readExact, if_pos h]

theorem packet_decode_short {buf : List Nat} (h : buf.length < 20) :
    exceptFailed (EncryptedPacket.decode buf) = true := by
  match buf with
  | [] => rfl
  | v :: r1 =>
    have h1 : r1.length < 19 := by simp at h; omega
    rw [EncryptedPacket.decode]
    simp only [readU8]
    by_cases h3 : r1.length < 3
    · rw [readExact_eq_none h3]
      rfl
    · simp only [readExact_split (n := 3) (l := r1) (by omega)]
      by_cases h8 : (r1.drop 3).length < 8
      · rw [readExact_eq_none h8]
        rfl
      · simp only [readExact_split (n := 8) (l := r1.drop 3) (by omega)]
        have h9 : ((r1.drop 3).drop 8).length < 8 := by
          simp at h8 ⊢
          omega
        rw [readBE_eq_none h9]
        rfl

theorem packet_decode_bad_header {v : Nat} {res : List Nat} (rest : List Nat)
    (h3 : res.length = 3) (hbad : v ≠ 8 ∨ res ≠ [255, 255, 255]) :
    exceptFailed (EncryptedPacket.decode (v :: (res ++ rest))) = true := by
  rw [EncryptedPacket.decode]
  simp only [readU8, readExact_append rest h3]
  by_cases h8 : rest.length < 8
  · rw [readExact_eq_none h8]
    rfl
  · simp only [readExact_split (n := 8) (l := rest) (by omega)]
    by_cases hb : ((rest.drop 8)).length < 8
    · rw [readBE_eq_none hb]
      rfl
    · rw [readBE, readExact_split (n := 8) (l := rest.drop 8) (by omega)]
      simp only [if_pos hbad]
      rfl

/-- C7: `EncryptedPacket::decode` rejects every input that is too short to hold
the 20-byte header, and every input whose version byte is not `0x08` or whose
three reserved bytes are not `FF FF FF`; it accepts the canonical 22-byte test
vector, recovering payload `[0xF0, 0x0D]`; and the empty input, 128 zero
bytes, and 128 `0x08` bytes all fail. -/
theorem claim_C7_outer_packet_validation :
    (∀ buf : List Nat, buf.length < 20 →
      exceptFailed (EncryptedPacket.decode buf) = true) ∧
    (∀ (v : Nat) (res rest : List Nat), res.length = 3 →
      (v ≠ 8 ∨ res ≠ [255, 255, 255]) →
      exceptFailed (EncryptedPacket.decode (v :: (res ++ rest))) = true) ∧
    EncryptedPacket.decode
        [0x08, 0xFF, 0xFF, 0xFF, 0, 0, 0, 0, 0, 0, 0, 0,
         0, 0, 0, 0, 0, 0, 0, 0, 0xF0, 0x0D] =
      .ok ⟨8, 0, .Initiator2Responder, 0, [0xF0, 0x0D]⟩ ∧
    exceptFailed (EncryptedPacket.decode []) = true ∧
    exceptFailed (EncryptedPacket.decode (List.replicate 128 0)) = true ∧
    exceptFailed (EncryptedPacket.decode (List.replicate 128 8)) = true := by
  refine ⟨fun buf h => packet_decode_short h,
    fun v res rest h3 hbad => packet_decode_bad_header rest h3 hbad, ?_, rfl, ?_, ?_⟩
  · rfl
  · have h0 : List.replicate 128 (0 : Nat) =
        0 :: (List.replicate 3 0 ++ List.replicate 124 0) := by
      rw [show (128 : Nat) = 1 + (3 + 124) from rfl, List.replicate_add,
        List.replicate_add]
      rfl
    rw [h0]
    exact packet_decode_bad_header _ (by simp) (Or.inl (by decide))
  · have h8 : List.replicate 128 (8 : Nat) =
        8 :: (List.replicate 3 8 ++ List.replicate 124 8) := by
      rw [show (128 : Nat) = 1 + (3 + 124) from rfl, List.replicate_add,
        List.replicate_add]
      rfl
    rw [h8]
    exact packet_decode_bad_header _ (by simp) (Or.inr (by decide))

/-- Witness for C7 at concrete inputs: a 2-byte input is too short, and a
20-byte input with version `0x07` is rejected. -/
theorem claim_C7_outer_packet_validation_witness :
    exceptFailed (EncryptedPacket.decode [8, 255]) = true ∧
    exceptFailed (EncryptedPacket.decode
      (7 :: ([255, 255, 255] ++ List.replicate 16 0))) = true :=
  ⟨claim_C7_outer_packet_validation.1 [8, 255] (by decide),
   claim_C7_outer_packet_validation.2.1 7 [255, 255, 255] (List.replicate 16 0)
     (by decide) (Or.inl (by decide))⟩

/-- C1: decoding the encoding is the identity, both for inner frames (whose
fields fit the spec's widths: `u16` delay, sorted ack list, payload within the
encoder's asserted size limits) and for outer `EncryptedPacket`s (whose
version is the constant `0x08` and whose 63-bit route leaves the direction
bit clear, as the spec's data model requires). -/
theorem claim_C1_codec_roundtrip :
    (∀ f : Frame, f.wfB = true → Frame.decode (Frame.encode f) = .ok [f]) ∧
    (∀ p : EncryptedPacket, p.version = 8 → p.route % 2 = 0 → p.route < 2 ^ 64 →
      p.counter < 2 ^ 64 →
      EncryptedPacket.decode (EncryptedPacket.encode p) = .ok p) := by
  refine ⟨frame_decode_encode, ?_⟩
  intro p h8 hev hr hc
  obtain ⟨v, R, d, c, pl⟩ := p
  simp only at h8 hev hr hc
  subst h8
  rw [packet_decode_encode_core ⟨8, R, d, c, pl⟩ rfl
    (by norm_num at hr ⊢; omega) (by norm_num at hc ⊢; omega)]
  have hRR : R - R % 2 = R := by omega
  simp only [hRR]

/-- Witness for C1: a concrete `Stream` frame and a concrete packet, with all
hypotheses discharged by evaluation. -/
theorem claim_C1_codec_roundtrip_witness :
    Frame.decode (Frame.encode (.Stream 0x63 0x1223 [104, 101, 108, 108, 111])) =
      .ok [.Stream 0x63 0x1223 [104, 101, 108, 108, 111]] ∧
    EncryptedPacket.decode (EncryptedPacket.encode
        ⟨8, 0x1234, .Responder2Initiator, 3, [1, 2]⟩) =
      .ok ⟨8, 0x1234, .Responder2Initiator, 3, [1, 2]⟩ :=
  ⟨claim_C1_codec_roundtrip.1 _ (by decide),
   claim_C1_codec_roundtrip.2 ⟨8, 0x1234, .Responder2Initiator, 3, [1, 2]⟩ rfl
     (by decide) (by decide) (by decide)⟩

/-- C8: encoding a packet with direction `Responder2Initiator` sets the low
bit of the last wire route byte (offset 11); decoding recovers direction
`Responder2Initiator` and the route with its low bit cleared (`R & !1`,
i.e. `R - R % 2`). -/
theorem claim_C8_direction_bit (R c : Nat) (pl : List Nat)
    (hR : R < 2 ^ 64) (hc : c < 2 ^ 64) :
    ((EncryptedPacket.encode ⟨8, R, .Responder2Initiator, c, pl⟩).getD 11 0) % 2 = 1 ∧
    EncryptedPacket.decode (EncryptedPacket.encode
        ⟨8, R, .Responder2Initiator, c, pl⟩) =
      .ok ⟨8, R - R % 2, .Responder2Initiator, c, pl⟩ := by
  constructor
  · have hb7 := beBytes8_getD7 R
    simp only [List.getD_eq_getElem?_getD] at hb7
    have he : EncryptedPacket.encode ⟨8, R, .Responder2Initiator, c, pl⟩ =
        ([8, 255, 255, 255] ++ (beBytes 8 R).take 7) ++
          ((R % 256 - R % 256 % 2 + 1) :: (beBytes 8 c ++ pl)) := by
      simp [EncryptedPacket.encode, hb7, List.append_assoc]
    have hlen : ([8, 255, 255, 255] ++ (beBytes 8 R).take 7).length = 11 := by
      simp [beBytes8_take7, beBytes_length]
    rw [he, List.getD_append_right _ _ _ _ (le_of_eq hlen), hlen]
    simp only [Nat.sub_self]
    show (R % 256 - R % 256 % 2 + 1) % 2 = 1
    omega
  · exact packet_decode_encode_core ⟨8, R, .Responder2Initiator, c, pl⟩ rfl
      (by norm_num at hR ⊢; omega) (by norm_num at hc ⊢; omega)

/-- Witness for C8 at route `0x1235` (odd, so the cleared low bit is
observable), counter 3, payload `[1, 2]`. -/
theorem claim_C8_direction_bit_witness :
    ((EncryptedPacket.encode ⟨8, 0x1235, .Responder2Initiator, 3, [1, 2]⟩).getD 11 0) % 2
        = 1 ∧
    EncryptedPacket.decode (EncryptedPacket.encode
        ⟨8, 0x1235, .Responder2Initiator, 3, [1, 2]⟩) =
      .ok ⟨8, 0x1234, .Responder2Initiator, 3, [1, 2]⟩ :=
  claim_C8_direction_bit 0x1235 3 [1, 2] (by decide) (by decide)

/-- C9: under the encoder's `assert!` preconditions, `Frame::encode` writes
exactly `Frame::len()` bytes (the source then returns `Ok(self.len())`, so
the returned count equals the bytes written). -/
theorem claim_C9_encode_length (f : Frame) (h : f.encodeOk = true) :
    (Frame.encode f).length = f.len := by
  cases f with
  | Header stream payload =>
      simp [Frame.encode, Frame.len, beBytes_length]
      omega
  | Stream stream order payload =>
      simp [Frame.encode, Frame.len, beBytes_length]
      omega
  | Ack delay acked =>
      simp [Frame.encode, Frame.len, beBytes_length, bytesOfAcks_length, sortU64_length]
      omega
  | Ping => rfl
  | Disconnect => rfl
  | Close stream order =>
      simp [Frame.encode, Frame.len, beBytes_length]
  | Config timeout sleeping =>
      cases timeout with
      | none => simp [Frame.encode, Frame.len, beBytes_length]
      | some t => simp [Frame.encode, Frame.len, beBytes_length]

/-- Witness for C9 on a concrete `Ack` frame. -/
theorem claim_C9_encode_length_witness :
    (Frame.encode (.Ack 1 [0x872])).length = (Frame.Ack 1 [0x872]).len :=
  claim_C9_encode_length (.Ack 1 [0x872]) (by decide)

theorem settleStep_good {ctx : AddrMap} {s : Option SocketAddr × Option Int}
    {e : SocketAddr × Category × Nat} (h : GoodState ctx s) :
    GoodState (ctx ++ [e]) (settleStep s e) := by
  obtain ⟨ea, ecat, en⟩ := e
  rw [settleStep]
  by_cases hc : 1 ≤ en
  · simp only [hc, if_pos]
    rcases h with ⟨hs, h0⟩ | ⟨a, cat, n, hmem, hn, hs, hmin⟩
    · rw [hs]
      right
      refine ⟨ea, ecat, en, by simp, hc, rfl, ?_⟩
      intro x hx h1
      rcases List.mem_append.mp hx with hx | hx
      · exact absurd (h0 x hx) (by omega)
      · simp at hx
        subst hx
        exact le_refl _
    · rw [hs]
      by_cases hlt : cat.toI32 > ecat.toI32
      · simp only [hlt, if_pos]
        right
        refine ⟨ea, ecat, en, by simp, hc, rfl, ?_⟩
        intro x hx h1
        rcases List.mem_append.mp hx with hx | hx
        · exact le_trans (le_of_lt hlt) (hmin x hx h1)
        · simp at hx
          subst hx
          exact le_refl _
      · simp only [hlt, if_neg, if_false]
        right
        refine ⟨a, cat, n, List.mem_append.mpr (Or.inl hmem), hn, rfl, ?_⟩
        intro x hx h1
        rcases List.mem_append.mp hx with hx | hx
        · exact hmin x hx h1
        · simp at hx
          subst hx
          exact le_of_not_lt hlt
  · simp only [hc, if_neg, if_false]
    rcases h with ⟨hs, h0⟩ | ⟨a, cat, n, hmem, hn, hs, hmin⟩
    · left
      refine ⟨hs, ?_⟩
      intro x hx
      rcases List.mem_append.mp hx with hx | hx
      · exact h0 x hx
      · simp at hx
        subst hx
        simp
        omega
    · right
      refine ⟨a, cat, n, List.mem_append.mpr (Or.inl hmem), hn, hs, ?_⟩
      intro x hx h1
      rcases List.mem_append.mp hx with hx | hx
      · exact hmin x hx h1
      · simp at hx
        subst hx
        simp at h1
        omega

theorem foldl_settle_good (l : AddrMap) :
    ∀ (ctx : AddrMap) (s : Option SocketAddr × Option Int), GoodState ctx s →
      GoodState (ctx ++ l) (l.foldl settleStep s) := by
  induction l with
  | nil =>
      intro ctx s h
      simpa using h
  | cons e r ih =>
      intro ctx s h
      have h2 := ih (ctx ++ [e]) (settleStep s e) (settleStep_good h)
      simpa [List.append_assoc] using h2

theorem settle_scan_good (l : AddrMap) : GoodState l (l.foldl settleStep (none, none)) := by
  simpa using foldl_settle_good l [] (none, none) (Or.inl ⟨rfl, by simp⟩)

theorem lookupAddr_mem {l : AddrMap} {a : SocketAddr} {v : Category × Nat}
    (h : lookupAddr l a = some v) : (a, v.1, v.2) ∈ l := by
  induction l with
  | nil => simp [lookupAddr] at h
  | cons e r ih =>
      obtain ⟨b, cat, n⟩ := e
      rw [lookupAddr] at h
      by_cases hb : b = a
      · rw [if_pos hb] at h
        subst hb
        cases h
        simp
      · rw [if_neg hb] at h
        simp [ih h]

theorem bumpAddr_count (l : AddrMap) (a : SocketAddr) :
    (bumpAddr l a).2 = ((lookupAddr l a).getD (Category.Internet, 0)).2 + 1 := by
  induction l with
  | nil => rfl
  | cons e r ih =>
      obtain ⟨b, cat, n⟩ := e
      rw [bumpAddr, lookupAddr]
      by_cases hb : b = a
      · simp [hb]
      · simp [hb, ih]

theorem bumpAddr_lookup (l : AddrMap) (a : SocketAddr) :
    lookupAddr (bumpAddr l a).1 a =
      some (((lookupAddr l a).getD (Category.Internet, 0)).1, (bumpAddr l a).2) := by
  induction l with
  | nil => simp [bumpAddr, lookupAddr]
  | cons e r ih =>
      obtain ⟨b, cat, n⟩ := e
      rw [bumpAddr, lookupAddr]
      by_cases hb : b = a
      · simp [hb, lookupAddr]
      · simp only [hb, if_false, if_neg]
        rw [lookupAddr, if_neg hb]
        simpa using ih

/-- C2: while `Discovering`, each received datagram increments the sender's
counter (new entries start as `Internet` with count 0 and are bumped to 1);
the channel stays `Discovering` while the bumped count is below 5 and settles
exactly when it reaches 5, on an address whose category is minimal among
candidates with count >= 1; concretely, with candidates `A:Local, B:Internet,
C:Internet`, four datagrams from `B` leave the channel `Discovering` and a
fifth settles it on `B` (category `Internet`). -/
theorem claim_C2_path_settle :
    (∀ (addrs : AddrMap) (addr : SocketAddr),
      (bumpAddr addrs addr).2 =
          ((lookupAddr addrs addr).getD (Category.Internet, 0)).2 + 1 ∧
      lookupAddr (bumpAddr addrs addr).1 addr =
        some (((lookupAddr addrs addr).getD (Category.Internet, 0)).1,
          (bumpAddr addrs addr).2)) ∧
    (∀ (addrs : AddrMap) (addr : SocketAddr), (bumpAddr addrs addr).2 < 5 →
      discoverStep (.Discovering addrs) addr =
        some (.Discovering (bumpAddr addrs addr).1)) ∧
    (∀ (addrs : AddrMap) (addr : SocketAddr), 5 ≤ (bumpAddr addrs addr).2 →
      ∃ m cat n, discoverStep (.Discovering addrs) addr =
          some (.Established m (bumpAddr addrs addr).1) ∧
        (m, cat, n) ∈ (bumpAddr addrs addr).1 ∧ 1 ≤ n ∧
        ∀ e ∈ (bumpAddr addrs addr).1, 1 ≤ e.2.2 → cat.toI32 ≤ e.2.1.toI32) ∧
    discoverMany (.Discovering [(0, .Local, 0), (1, .Internet, 0), (2, .Internet, 0)])
        [1, 1, 1, 1] =
      some (.Discovering [(0, .Local, 0), (1, .Internet, 4), (2, .Internet, 0)]) ∧
    discoverMany (.Discovering [(0, .Local, 0), (1, .Internet, 0), (2, .Internet, 0)])
        [1, 1, 1, 1, 1] =
      some (.Established 1 [(0, .Local, 0), (1, .Internet, 5), (2, .Internet, 0)]) := by
  refine ⟨fun addrs addr => ⟨bumpAddr_count addrs addr, bumpAddr_lookup addrs addr⟩,
    ?_, ?_, by decide, by decide⟩
  · intro addrs addr hlt
    rw [discoverStep]
    simp only [if_neg (by omega : ¬ 5 ≤ (bumpAddr addrs addr).2)]
  · intro addrs addr hge
    have hmem : (addr, ((lookupAddr addrs addr).getD (Category.Internet, 0)).1,
        (bumpAddr addrs addr).2) ∈ (bumpAddr addrs addr).1 :=
      lookupAddr_mem (bumpAddr_lookup addrs addr)
    have hg := settle_scan_good (bumpAddr addrs addr).1
    rcases hg with ⟨hs, h0⟩ | ⟨a, cat, n, hamem, hn, hs, hmin⟩
    · exact absurd (h0 _ hmem) (by simp; omega)
    · refine ⟨a, cat, n, ?_, hamem, hn, hmin⟩
      rw [discoverStep]
      simp only [if_pos hge, settlePick, hs]

/-- Witness for C2: the general parts applied at `B = 1` over the three-
candidate map, with counts 4 and then 5. -/
theorem claim_C2_path_settle_witness :
    (bumpAddr [(0, .Local, 0), (1, .Internet, 3), (2, .Internet, 0)] 1).2 =
        ((lookupAddr [(0, .Local, 0), (1, .Internet, 3), (2, .Internet, 0)] 1).getD
          (Category.Internet, 0)).2 + 1 ∧
    discoverStep (.Discovering [(0, .Local, 0), (1, .Internet, 3), (2, .Internet, 0)]) 1 =
      some (.Discovering [(0, .Local, 0), (1, .Internet, 4), (2, .Internet, 0)]) ∧
    (∃ m cat n, discoverStep
        (.Discovering [(0, .Local, 0), (1, .Internet, 4), (2, .Internet, 0)]) 1 =
          some (.Established m
            (bumpAddr [(0, .Local, 0), (1, .Internet, 4), (2, .Internet, 0)] 1).1) ∧
      (m, cat, n) ∈ (bumpAddr [(0, .Local, 0), (1, .Internet, 4), (2, .Internet, 0)] 1).1 ∧
      1 ≤ n ∧
      ∀ e ∈ (bumpAddr [(0, .Local, 0), (1, .Internet, 4), (2, .Internet, 0)] 1).1,
        1 ≤ e.2.2 → cat.toI32 ≤ e.2.1.toI32) :=
  ⟨(claim_C2_path_settle.1 _ 1).1,
   by
     have := claim_C2_path_settle.2.1
       [(0, .Local, 0), (1, .Internet, 3), (2, .Internet, 0)] 1 (by decide)
     simpa using this,
   claim_C2_path_settle.2.2.1 [(0, .Local, 0), (1, .Internet, 4), (2, .Internet, 0)] 1
     (by decide)⟩

/-- C3: in `Established(chosen, prior)` mode, a successfully received datagram
from `addr != chosen` moves `chosen` to `addr` exactly when the prior category
of `chosen` (default `Internet`) is `>=` the prior category of `addr`
(default `Internet`); concretely, established at `B:Internet`, a packet from
`A` previously known as `Local` makes `chosen = A`. -/
theorem claim_C3_migration :
    (∀ (chosen : SocketAddr) (prior : AddrMap) (addr : SocketAddr), addr ≠ chosen →
      (migrate chosen prior addr = addr ↔
        ((lookupAddr prior addr).getD (Category.Internet, 0)).1.toI32 ≤
          ((lookupAddr prior chosen).getD (Category.Internet, 0)).1.toI32)) ∧
    migrate 1 [(0, .Local, 3), (1, .Internet, 5)] 0 = 0 := by
  refine ⟨?_, by decide⟩
  intro chosen prior addr hne
  rw [migrate, if_pos hne]
  by_cases hcat : ((lookupAddr prior addr).getD (Category.Internet, 0)).1.toI32 ≤
      ((lookupAddr prior chosen).getD (Category.Internet, 0)).1.toI32
  · rw [if_pos hcat]
    exact ⟨fun _ => hcat, fun _ => rfl⟩
  · rw [if_neg hcat]
    exact ⟨fun h => absurd h.symm hne, fun h => absurd h hcat⟩

/-- Witness for C3: established at `B = 1` (`Internet`), a datagram from
`A = 0` (`Local`) migrates; the iff instance at those values. -/
theorem claim_C3_migration_witness :
    migrate 1 [(0, .Local, 3), (1, .Internet, 5)] 0 = 0 ↔
      ((lookupAddr [(0, .Local, 3), (1, .Internet, 5)] 0).getD
          (Category.Internet, 0)).1.toI32 ≤
        ((lookupAddr [(0, .Local, 3), (1, .Internet, 5)] 1).getD
          (Category.Internet, 0)).1.toI32 :=
  claim_C3_migration.1 1 [(0, .Local, 3), (1, .Internet, 5)] 0 (by decide)

/-- C4: on the broker channel, an outgoing-pending stream in
`WaitingForHeaders` consumes its first inbound `Stream` frame (decoded as
headers) producing no event and moving to `WaitingForResponse`; the second
inbound frame decodes as a `ConnectResponse`, closes the broker stream and
produces `Event::OutgoingConnect` with `cr = Some(decoded)` and
`requester = Some(pending noise)`; a `Close` at any stage produces
`Event::OutgoingConnect` with `cr = None`, `requester = None`, carrying the
target identity. -/
theorem claim_C4_connect_state_machine :
    (∀ (ext : Externals) (st : BrokerState) (stream : Nat) (frame : List Nat)
        (id : Identity) (noise : NoiseRequester) (h : Nat),
      st.outstandingIncomming.contains stream = false →
      lookupKV st.outstandingOutgoing stream = some (.WaitingForHeaders id noise) →
      ext.decodeHeaders frame = .ok h →
      brokerReceiveStream ext true st stream frame =
        .ok ⟨st.outstandingIncomming,
          insertKV (removeKV st.outstandingOutgoing stream) stream
            (.WaitingForResponse id noise), st.publishSecret⟩ [] [] none) ∧
    (∀ (ext : Externals) (st : BrokerState) (stream : Nat) (frame : List Nat)
        (id : Identity) (noise : NoiseRequester) (cr : ProtoConnectResponse),
      st.outstandingIncomming.contains stream = false →
      lookupKV st.outstandingOutgoing stream = some (.WaitingForResponse id noise) →
      ext.decodeConnectResponse frame = .ok cr →
      brokerReceiveStream ext true st stream frame =
        .ok ⟨st.outstandingIncomming, removeKV st.outstandingOutgoing stream,
          st.publishSecret⟩
          [] [stream] (some (.OutgoingConnect ⟨id, some cr, some noise⟩))) ∧
    (∀ (st : BrokerState) (stream : Nat) (stage : ConnectResponseStage),
      lookupKV st.outstandingOutgoing stream = some stage →
      brokerCloseStream true st stream =
        (⟨st.outstandingIncomming, removeKV st.outstandingOutgoing stream,
           st.publishSecret⟩,
         some (.OutgoingConnect ⟨stage.identity, none, none⟩))) := by
  refine ⟨?_, ?_, ?_⟩
  · intro ext st stream frame id noise h hnc hlk hdec
    have hnc' : stream ∉ st.outstandingIncomming := by simpa using hnc
    simp [brokerReceiveStream, hnc', hlk, hdec]
  · intro ext st stream frame id noise cr hnc hlk hdec
    have hnc' : stream ∉ st.outstandingIncomming := by simpa using hnc
    simp [brokerReceiveStream, hnc', hlk, hdec]
  · intro st stream stage hlk
    simp [brokerCloseStream, hlk]

/-- Witness for C4: both frame steps and the close step at stream 3 with
target identity 1 and pending noise state 6. -/
theorem claim_C4_connect_state_machine_witness :
    brokerReceiveStream sampleExternals true
        ⟨[], [(3, .WaitingForHeaders 1 6)], none⟩ 3 [] =
      .ok ⟨[], [(3, .WaitingForResponse 1 6)], none⟩ [] [] none ∧
    brokerReceiveStream sampleExternals true
        ⟨[], [(3, .WaitingForResponse 1 6)], none⟩ 3 [] =
      .ok ⟨[], [], none⟩ [] [3]
        (some (.OutgoingConnect ⟨1, some ⟨true, 7, [], []⟩, some 6⟩)) ∧
    brokerCloseStream true ⟨[], [(3, .WaitingForHeaders 1 6)], none⟩ 3 =
      (⟨[], [], none⟩, some (.OutgoingConnect ⟨1, none, none⟩)) :=
  ⟨claim_C4_connect_state_machine.1 sampleExternals
      ⟨[], [(3, .WaitingForHeaders 1 6)], none⟩ 3 [] 1 6 0 rfl rfl rfl,
   claim_C4_connect_state_machine.2.1 sampleExternals
      ⟨[], [(3, .WaitingForResponse 1 6)], none⟩ 3 [] 1 6 ⟨true, 7, [], []⟩ rfl rfl rfl,
   claim_C4_connect_state_machine.2.2 ⟨[], [(3, .WaitingForHeaders 1 6)], none⟩ 3
      (.WaitingForHeaders 1 6) rfl⟩

/-- C5: a `PeerConnectRequest` on an incoming-pending broker stream whose
embedded identity differs from the noise responder's recovered identity, or
whose embedded timestamp differs from the handshake's, makes
`peer_connect_request` return `Error::SecurityViolation`; `poll` then sends a
`PeerConnectResponse { ok: false }` back on the same broker stream, closes
it, and produces no `Event::IncommingConnect`. -/
theorem claim_C5_security_violation
    (ext : Externals) (st : BrokerState) (stream ps : Nat) (frame : List Nat)
    (cr : ProtoPeerConnectRequest) (identity : Identity) (pkt : EncryptedPacket)
    (resp : NoiseResponder) (id2 : Identity) (ts : Nat)
    (h1 : ext.decodePeerConnectRequest frame = .ok cr)
    (h2 : ext.identityFromBytes cr.identity = .ok identity)
    (h3 : EncryptedPacket.decode cr.handshake = .ok pkt)
    (h4 : ext.noiseRespond pkt = .ok (resp, id2, ts))
    (hbad : id2 ≠ identity ∨ ts ≠ cr.timestamp)
    (hin : st.outstandingIncomming.contains stream = true)
    (hps : st.publishSecret = some ps) :
    peer_connect_request ext stream ps frame = .error .SecurityViolation ∧
    brokerReceiveStream ext true st stream frame =
      .ok ⟨st.outstandingIncomming.erase stream, st.outstandingOutgoing,
          st.publishSecret⟩
        [(stream, ext.encodePeerConnectResponse ⟨false, [], []⟩)] [stream] none := by
  have hpc : peer_connect_request ext stream ps frame = .error .SecurityViolation := by
    rw [peer_connect_request]
    simp only [h1, h2, h3, h4]
    rw [if_pos hbad]
  refine ⟨hpc, ?_⟩
  have hps' : st.publishSecret.getD 0 = ps := by rw [hps]; rfl
  have hin' : stream ∈ st.outstandingIncomming := by simpa using hin
  simp [brokerReceiveStream, hin', hps, hps', hpc]

/-- Witness for C5: the sample noise responder recovers identity 2 while the
request embeds identity 1, so the request is rejected, a negative response is
sent on stream 4, and the stream is closed with no event. -/
theorem claim_C5_security_violation_witness :
    peer_connect_request sampleExternals 4 9 [] = .error .SecurityViolation ∧
    brokerReceiveStream sampleExternals true ⟨[4], [], some 9⟩ 4 [] =
      .ok ⟨[], [], some 9⟩
        [(4, sampleExternals.encodePeerConnectResponse ⟨false, [], []⟩)] [4] none :=
  claim_C5_security_violation sampleExternals ⟨[4], [], some 9⟩ 4 9 [] _ _ _ _ _ _
    rfl rfl rfl rfl (Or.inl (by decide)) rfl rfl

/-- C6: `accept_outgoing` fails with `OutgoingConnectFailed` — leaving the
channel map unchanged — whenever the response or the pending requester is
absent or the response's `ok` is false; on an accepted response it panics if
the completed handshake's identity differs from the requested one or the
response's `route` differs from the transport's route; otherwise it inserts a
new channel at that route in `Discovering` mode. -/
theorem claim_C6_accept_outgoing :
    (∀ (ext : Externals) (ep : Endpoint) (q : ConnectResponse),
      (q.cr = none ∨ q.requester = none) →
      accept_outgoing ext ep q = .err (.OutgoingConnectFailed q.identity q.cr) ep) ∧
    (∀ (ext : Externals) (ep : Endpoint) (q : ConnectResponse)
        (cr : ProtoConnectResponse) (requester : NoiseRequester),
      q.cr = some cr → q.requester = some requester → cr.ok = false →
      accept_outgoing ext ep q = .err (.OutgoingConnectFailed q.identity (some cr)) ep) ∧
    (∀ (ext : Externals) (ep : Endpoint) (q : ConnectResponse)
        (cr : ProtoConnectResponse) (requester : NoiseRequester)
        (pkt : EncryptedPacket) (hs_identity : Identity) (noise : NoiseTransport),
      q.cr = some cr → q.requester = some requester → cr.ok = true →
      EncryptedPacket.decode cr.handshake = .ok pkt →
      ext.recvResponse requester pkt = .ok hs_identity →
      ext.intoTransport requester = .ok noise →
      q.identity ≠ hs_identity →
      accept_outgoing ext ep q = .abort) ∧
    (∀ (ext : Externals) (ep : Endpoint) (q : ConnectResponse)
        (cr : ProtoConnectResponse) (requester : NoiseRequester)
        (pkt : EncryptedPacket) (hs_identity : Identity) (noise : NoiseTransport),
      q.cr = some cr → q.requester = some requester → cr.ok = true →
      EncryptedPacket.decode cr.handshake = .ok pkt →
      ext.recvResponse requester pkt = .ok hs_identity →
      ext.intoTransport requester = .ok noise →
      q.identity = hs_identity →
      cr.route ≠ ext.transportRoute noise →
      accept_outgoing ext ep q = .abort) ∧
    (∀ (ext : Externals) (ep : Endpoint) (q : ConnectResponse)
        (cr : ProtoConnectResponse) (requester : NoiseRequester)
        (pkt : EncryptedPacket) (hs_identity : Identity) (noise : NoiseTransport)
        (paths : AddrMap),
      q.cr = some cr → q.requester = some requester → cr.ok = true →
      EncryptedPacket.decode cr.handshake = .ok pkt →
      ext.recvResponse requester pkt = .ok hs_identity →
      ext.intoTransport requester = .ok noise →
      q.identity = hs_identity →
      cr.route = ext.transportRoute noise →
      buildPaths ext cr.paths [] = some paths →
      accept_outgoing ext ep q = .ok cr.route
        ⟨insertKV ep.channels cr.route
            ⟨q.identity, .Discovering (addBrokerOrigin ep paths), [], true⟩,
          ep.broker_route⟩) := by
  refine ⟨?_, ?_, ?_, ?_, ?_⟩
  · intro ext ep q habs
    obtain ⟨qid, qcr, qreq⟩ := q
    simp only at habs
    rcases habs with h | h
    · subst h
      simp [accept_outgoing]
    · subst h
      cases qcr <;> simp [accept_outgoing]
  · intro ext ep q cr requester hcr hreq hok
    obtain ⟨qid, qcr, qreq⟩ := q
    simp only at hcr hreq
    subst hcr
    subst hreq
    simp [accept_outgoing, hok]
  · intro ext ep q cr requester pkt hs_identity noise hcr hreq hok hdec hrecv hit hne
    obtain ⟨qid, qcr, qreq⟩ := q
    simp only at hcr hreq hne
    subst hcr
    subst hreq
    simp [accept_outgoing, hok, hdec, hrecv, hit, hne]
  · intro ext ep q cr requester pkt hs_identity noise hcr hreq hok hdec hrecv hit
      hid hroute
    obtain ⟨qid, qcr, qreq⟩ := q
    simp only at hcr hreq hid
    subst hcr
    subst hreq
    subst hid
    simp [accept_outgoing, hok, hdec, hrecv, hit, hroute]
  · intro ext ep q cr requester pkt hs_identity noise paths hcr hreq hok hdec hrecv
      hit hid hroute hpaths
    obtain ⟨qid, qcr, qreq⟩ := q
    simp only at hcr hreq hid hroute
    subst hcr
    subst hreq
    subst hid
    simp [accept_outgoing, hok, hdec, hrecv, hit, hroute, hpaths]

/-- Witness for C6: with the sample externals — whose noise requester
recovers identity 1 and whose transports route to 7 — a response without a
`ConnectResponse` fails, a response for identity 2 aborts on the identity
check, and a well-formed response for identity 1 at route 7 inserts a
`Discovering` channel at route 7. -/
theorem claim_C6_accept_outgoing_witness :
    accept_outgoing sampleExternals ⟨[], 0⟩ ⟨1, none, some 5⟩ =
      .err (.OutgoingConnectFailed 1 none) ⟨[], 0⟩ ∧
    accept_outgoing sampleExternals ⟨[], 0⟩
        ⟨2, some ⟨true, 7,
          [8, 255, 255, 255, 0, 0, 0, 0, 0, 0, 0, 0, 0, 0, 0, 0, 0, 0, 0, 0], []⟩,
         some 5⟩ = .abort ∧
    accept_outgoing sampleExternals ⟨[], 0⟩
        ⟨1, some ⟨true, 7,
          [8, 255, 255, 255, 0, 0, 0, 0, 0, 0, 0, 0, 0, 0, 0, 0, 0, 0, 0, 0], []⟩,
         some 5⟩ =
      .ok 7 ⟨[(7, ⟨1, .Discovering [], [], true⟩)], 0⟩ :=
  ⟨claim_C6_accept_outgoing.1 sampleExternals ⟨[], 0⟩ ⟨1, none, some 5⟩ (Or.inl rfl),
   claim_C6_accept_outgoing.2.2.1 sampleExternals ⟨[], 0⟩
     ⟨2, some ⟨true, 7,
       [8, 255, 255, 255, 0, 0, 0, 0, 0, 0, 0, 0, 0, 0, 0, 0, 0, 0, 0, 0], []⟩,
      some 5⟩
     ⟨true, 7, [8, 255, 255, 255, 0, 0, 0, 0, 0, 0, 0, 0, 0, 0, 0, 0, 0, 0, 0, 0], []⟩
     5 ⟨8, 0, .Initiator2Responder, 0, []⟩ 1 5 rfl rfl rfl rfl rfl rfl (by decide),
   claim_C6_accept_outgoing.2.2.2.2 sampleExternals ⟨[], 0⟩
     ⟨1, some ⟨true, 7,
       [8, 255, 255, 255, 0, 0, 0, 0, 0, 0, 0, 0, 0, 0, 0, 0, 0, 0, 0, 0], []⟩,
      some 5⟩
     ⟨true, 7, [8, 255, 255, 255, 0, 0, 0, 0, 0, 0, 0, 0, 0, 0, 0, 0, 0, 0, 0, 0], []⟩
     5 ⟨8, 0, .Initiator2Responder, 0, []⟩ 1 5 [] rfl rfl rfl rfl rfl rfl rfl rfl rfl⟩

/-- C10: `Endpoint::open` and `Endpoint::stream` unwrap the channel lookup:
with no channel at the route they panic rather than return an error; when the
route names a live channel both complete without reaching that panic. -/
theorem claim_C10_open_stream_unwrap :
    (∀ (ep : Endpoint) (route sid : Nat), lookupKV ep.channels route = none →
      Endpoint.openStream ep route sid = .abort) ∧
    (∀ (ep : Endpoint) (route s : Nat) (m : List Nat),
      lookupKV ep.channels route = none →
      Endpoint.streamSend ep route s m = .abort) ∧
    (∀ (ep : Endpoint) (route sid : Nat) (ch : UdpChannel),
      lookupKV ep.channels route = some ch →
      Endpoint.openStream ep route sid =
        .ok ⟨insertKV ep.channels route
            ⟨ch.identity, ch.addrs, sid :: ch.streams, ch.newhandl⟩,
          ep.broker_route⟩) ∧
    (∀ (ep : Endpoint) (route s : Nat) (m : List Nat) (ch : UdpChannel),
      lookupKV ep.channels route = some ch →
      Endpoint.streamSend ep route s m = .ok ep) := by
  refine ⟨?_, ?_, ?_, ?_⟩
  · intro ep route sid hlk
    simp [Endpoint.openStream, hlk]
  · intro ep route s m hlk
    simp [Endpoint.streamSend, hlk]
  · intro ep route sid ch hlk
    simp [Endpoint.openStream, hlk]
  · intro ep route s m ch hlk
    simp [Endpoint.streamSend, hlk]

/-- Witness for C10: one channel at route 7; route 9 is unknown (panic), route
7 works for both operations. -/
theorem claim_C10_open_stream_unwrap_witness :
    Endpoint.openStream ⟨[(7, ⟨1, .Discovering [], [], false⟩)], 0⟩ 9 11 = .abort ∧
    Endpoint.streamSend ⟨[(7, ⟨1, .Discovering [], [], false⟩)], 0⟩ 9 11 [1] = .abort ∧
    Endpoint.openStream ⟨[(7, ⟨1, .Discovering [], [], false⟩)], 0⟩ 7 11 =
      .ok ⟨[(7, ⟨1, .Discovering [], [11], false⟩)], 0⟩ ∧
    Endpoint.streamSend ⟨[(7, ⟨1, .Discovering [], [], false⟩)], 0⟩ 7 11 [1] =
      .ok ⟨[(7, ⟨1, .Discovering [], [], false⟩)], 0⟩ :=
  ⟨claim_C10_open_stream_unwrap.1 _ 9 11 rfl,
   claim_C10_open_stream_unwrap.2.1 _ 9 11 [1] rfl,
   claim_C10_open_stream_unwrap.2.2.1 _ 7 11 ⟨1, .Discovering [], [], false⟩ rfl,
   claim_C10_open_stream_unwrap.2.2.2 _ 7 11 [1] ⟨1, .Discovering [], [], false⟩ rfl⟩

end Carrier
